import Mathlib

/-!
# Verification of the JSXN notation codec

A shallow embedding of the JSXN codec: the notation decoder
(`decode`, `buildTree`, `classifyAndParse`, `parseElement`, ...),
the alias engine (`generateAliases`, `findClassAlias`, ...), the
tree-level notation writer corresponding to the AST emitter, the two
target renderers (JSX / HTML), and the front-end JSX-detection
traversals (`hasJSX`, `containsJSX`).

JavaScript strings are modelled as `String`; index arithmetic of the
source (`slice`, `indexOf`, `charAt`) is mirrored by helper functions
with JavaScript semantics (negative `slice` indices, `-1` from a
failed `indexOf`).  JavaScript `Map`s are modelled as insertion-ordered
association lists with overwrite-on-set, and `Set`s as lists.
-/

namespace JSXN

/-! ## JavaScript string and map primitives -/

/-- JavaScript `String.prototype.slice(start, end)`: negative indices count
from the end, indices are clamped to `[0, len]`, and an empty string results
when `start ≥ end`. -/
def jsSlice (s : String) (a b : Int) : String :=
  let len : Int := s.length
  let norm : Int → Int := fun x => if x < 0 then max (len + x) 0 else min x len
  let from_ := norm a
  let to_ := norm b
  if from_ < to_ then
    ((s.toList.drop from_.toNat).take (to_ - from_).toNat).asString
  else ""

/-- JavaScript one-argument `slice(start)`. -/
def jsSliceFrom (s : String) (a : Int) : String :=
  jsSlice s a s.length

/-- JavaScript `String.prototype.indexOf(char)`: position of the first
occurrence of the character, `-1` when absent. -/
def jsIndexOf (s : String) (c : Char) : Int :=
  match s.toList.findIdx? (· = c) with
  | some i => (i : Int)
  | none => -1

/-- Is `p` a prefix of `s` (character lists)? -/
def listIsPre : List Char → List Char → Bool
  | [], _ => true
  | _ :: _, [] => false
  | a :: as, b :: bs => a = b && listIsPre as bs

/-- JavaScript `String.prototype.startsWith`. -/
def jsStartsWith (s p : String) : Bool :=
  listIsPre p.toList s.toList

/-- JavaScript `String.prototype.endsWith`. -/
def jsEndsWith (s p : String) : Bool :=
  listIsPre p.toList.reverse s.toList.reverse

/-- JavaScript `String.prototype.trimStart`. -/
def jsTrimStart (s : String) : String :=
  (s.toList.dropWhile Char.isWhitespace).asString

/-- JavaScript `String.prototype.trim`. -/
def jsTrim (s : String) : String :=
  (((s.toList.dropWhile Char.isWhitespace).reverse.dropWhile Char.isWhitespace).reverse).asString

/-- Core of `splitOnChar`. -/
def splitOnCharGo (sep : Char) : List Char → List Char → List String → List String
  | [], cur, acc => (cur.reverse.asString :: acc).reverse
  | c :: rest, cur, acc =>
    if c = sep then splitOnCharGo sep rest [] (cur.reverse.asString :: acc)
    else splitOnCharGo sep rest (c :: cur) acc

/-- JavaScript `String.prototype.split(sep)` for a one-character separator
(every split in the source uses `'\n'`, `','` or `'.'`). -/
def splitOnChar (s : String) (sep : Char) : List String :=
  splitOnCharGo sep s.toList [] []

/-- Core of `splitPred`. -/
def splitPredGo (p : Char → Bool) : List Char → List Char → List String → List String
  | [], cur, acc => (cur.reverse.asString :: acc).reverse
  | c :: rest, cur, acc =>
    if p c then splitPredGo p rest [] (cur.reverse.asString :: acc)
    else splitPredGo p rest (c :: cur) acc

/-- JavaScript `String.prototype.split(regex)` for a character-class regex
(the source splits class names on `/[-:]/`). -/
def splitPred (s : String) (p : Char → Bool) : List String :=
  splitPredGo p s.toList [] []

/-- Number of leading whitespace characters of a line
(`line.length - line.trimStart().length`). -/
def indentOf (s : String) : Nat :=
  s.length - (jsTrimStart s).length

/-- JavaScript `map.get(k)` on an insertion-ordered association list. -/
def jsMapGet (m : List (String × String)) (k : String) : Option String :=
  (m.find? (fun p => p.1 = k)).map (·.2)

/-- JavaScript `map.set(k, v)`: overwrite an existing key in place, otherwise
append. -/
def jsMapSet (m : List (String × String)) (k v : String) : List (String × String) :=
  if m.any (fun p => p.1 = k) then
    m.map (fun p => if p.1 = k then (k, v) else p)
  else m ++ [(k, v)]

/-- `map.get(k) || d` — JavaScript `||` falls through on the empty string. -/
def jsGetOr (m : List (String × String)) (k d : String) : String :=
  match jsMapGet m k with
  | some v => if v = "" then d else v
  | none => d

/-- `map.get(k) ?? d` — JavaScript `??` falls through only on `undefined`. -/
def jsGetNullish (m : List (String × String)) (k d : String) : String :=
  match jsMapGet m k with
  | some v => v
  | none => d

/-! ## The tree model

The decoder builds plain objects; every node built by `buildTree` carries a
`children` array (the source assigns `node.children = []` to each parsed
line's node), so each constructor here carries a `children` field. -/

/-- An `#id`/`.class` selector: literal string or dynamic `{expr}`. -/
inductive Sel where
  | str (value : String)
  | expr (value : String)
deriving Repr, DecidableEq

/-- A prop parsed from a `{...}` props block. -/
inductive PropV where
  | spread (value : String)
  | boolean (name : String)
  | str (name value : String)
  | expr (name value : String)
deriving Repr, DecidableEq

/-- A tree node, mirroring the decoder's tagged plain objects. -/
inductive Node where
  | fragment (children : List Node)
  | element (tag : String) (id : Option Sel) (classes : List Sel)
      (props : List PropV) (inlineChild : Option Node) (children : List Node)
  | text (value : String) (children : List Node)
  | exprNode (value : String) (children : List Node)
  | conditional (condition : String) (child : Node) (children : List Node)
  | ternary (condition : String) (consequent alternate : Node) (children : List Node)
  | mapNode (collection : String) (param : String) (child : Node) (children : List Node)
deriving Repr

/-- The `children` field of a node. -/
def Node.childrenOf : Node → List Node
  | .fragment cs => cs
  | .element _ _ _ _ _ cs => cs
  | .text _ cs => cs
  | .exprNode _ cs => cs
  | .conditional _ _ cs => cs
  | .ternary _ _ _ cs => cs
  | .mapNode _ _ _ cs => cs

/-- Replace the `children` field of a node. -/
def Node.withChildren : Node → List Node → Node
  | .fragment _, cs => .fragment cs
  | .element t i k p ic _, cs => .element t i k p ic cs
  | .text v _, cs => .text v cs
  | .exprNode v _, cs => .exprNode v cs
  | .conditional c ch _, cs => .conditional c ch cs
  | .ternary c a b _, cs => .ternary c a b cs
  | .mapNode c p ch _, cs => .mapNode c p ch cs

/-- Replace the inline `child` field of a `conditional`/`map` node
(identity on other kinds). -/
def Node.withChild : Node → Node → Node
  | .conditional c _ cs, ch => .conditional c ch cs
  | .mapNode co p _ cs, ch => .mapNode co p ch cs
  | n, _ => n

/-- Alias-resolution context threaded through the decoder: the three reverse
alias maps (`alias → canonical`). -/
structure Ctx where
  reverseComp : List (String × String) := []
  reverseProp : List (String × String) := []
  reverseClass : List (String × String) := []

/-! ## Balanced-delimiter scanners -/

/-- Core of `findBalancedBrace`: scanning the suffix of the string that starts
at the opening position, return the relative index of the `}` that brings the
depth back to zero. -/
def fbbGo : List Char → Int → Nat → Option Nat
  | [], _, _ => none
  | c :: rest, depth, i =>
    if c = '{' then fbbGo rest (depth + 1) (i + 1)
    else if c = '}' then
      if depth - 1 = 0 then some i else fbbGo rest (depth - 1) (i + 1)
    else fbbGo rest depth (i + 1)

/-- `findBalancedBrace(str, openPos)` expressed on the suffix starting at
`openPos`: relative index of the matching `}`, falling back to the last index
of the string (`str.length - 1`, i.e. relative `cs.length - 1`) when
unterminated. -/
def findBalancedBraceRel (cs : List Char) : Nat :=
  (fbbGo cs 0 0).getD (cs.length - 1)

/-- Core of `findUnbraced`: index of the first occurrence of `char` at zero
`{}/()/[]` nesting depth. -/
def fubGo (target : Char) : List Char → Int → Nat → Int
  | [], _, _ => -1
  | c :: rest, depth, i =>
    if c = '{' ∨ c = '(' ∨ c = '[' then fubGo target rest (depth + 1) (i + 1)
    else if c = '}' ∨ c = ')' ∨ c = ']' then fubGo target rest (depth - 1) (i + 1)
    else if c = target ∧ depth = 0 then (i : Int)
    else fubGo target rest depth (i + 1)

/-- `findUnbraced(str, char)`: first index of `char` outside any
`{}/()/[]` nesting, `-1` when there is none. -/
def findUnbraced (s : String) (target : Char) : Int :=
  fubGo target s.toList 0 0

/-- Core of `splitProps`: split on top-level commas, tracking bracket depth
and quoted spans (quotes toggle only at depth 0). `cur` is the current part
(reversed), `acc` the completed parts (reversed). -/
def splitPropsGo : List Char → Int → Bool → List Char → List String → List String
  | [], _, _, cur, acc => (cur.reverse.asString :: acc).reverse
  | c :: rest, depth, inQuote, cur, acc =>
    if c = '"' ∧ depth = 0 then
      splitPropsGo rest depth (!inQuote) (c :: cur) acc
    else if !inQuote then
      if c = '{' ∨ c = '(' ∨ c = '[' then
        splitPropsGo rest (depth + 1) inQuote (c :: cur) acc
      else if c = '}' ∨ c = ')' ∨ c = ']' then
        splitPropsGo rest (depth - 1) inQuote (c :: cur) acc
      else if c = ',' ∧ depth = 0 then
        splitPropsGo rest depth inQuote [] (cur.reverse.asString :: acc)
      else splitPropsGo rest depth inQuote (c :: cur) acc
    else splitPropsGo rest depth inQuote (c :: cur) acc

/-- `splitProps(block)`: split a props block by top-level commas, respecting
balanced braces/parens/brackets and quoted strings. -/
def splitProps (block : String) : List String :=
  splitPropsGo block.toList 0 false [] []

/-! ## Prop-value classification -/

/-- The fixed set of prop names whose simple values are rendered as quoted
strings (`STRING_PROPS` in the source). -/
def STRING_PROPS : List String :=
  ["type", "placeholder", "href", "src", "alt", "name", "role",
   "target", "rel", "method", "action", "htmlFor", "autoComplete",
   "d", "viewBox", "transform", "points", "fill", "stroke", "xmlns",
   "preserveAspectRatio", "stroke-width", "stroke-linecap", "stroke-linejoin",
   "stroke-dasharray", "font-family", "font-size", "font-weight", "text-anchor",
   "opacity", "rx", "ry", "cx", "cy", "r", "x", "y", "x1", "y1", "x2", "y2",
   "width", "height", "dx", "dy", "offset", "stop-color", "stop-opacity"]

/-- Characters of the JS-operator class `[{}()=>!&|?+\[\]]`. -/
def opChars : List Char := ['{', '}', '(', ')', '=', '>', '!', '&', '|', '?', '+', '[', ']']

/-- Characters of the path class `[.\-\/]`. -/
def pathChars : List Char := ['.', '-', '/']

/-- `/[a-z][A-Z]/` — some adjacent lowercase→uppercase transition. -/
def hasCamelTransition : List Char → Bool
  | a :: b :: rest => (a.isLower && b.isUpper) || hasCamelTransition (b :: rest)
  | _ => false

/-- `isSimpleStringValue(val)` — the string-vs-expression value-shape
heuristic for prop values. -/
def isSimpleStringValue (val : String) : Bool :=
  let cs := val.toList
  if cs.any (fun c => opChars.contains c) then false
  else if cs.contains ' ' then true
  else if jsStartsWith val "#" then true
  else if cs.any (fun c => pathChars.contains c) then true
  else if (cs.head?.map Char.isDigit).getD false then true
  else if val = "currentColor" ∨ val = "evenOdd" ∨ val = "nonZero" ∨
          val = "sRGB" ∨ val = "linearRGB" then true
  else if cs ≠ [] ∧ cs.all (fun c => c.isAlphanum ∨ c = '_') ∧ !hasCamelTransition cs then true
  else false

/-! ## Singularization -/

/-- `singularize(collection)`: derive a map iteration parameter from the final
dotted segment of the collection expression. -/
def singularize (collection : String) : String :=
  let name :=
    if collection.toList.contains '.' then (splitOnChar collection '.').getLastD collection
    else collection
  if jsEndsWith name "ies" then name.dropRight 3 ++ "y"
  else if jsEndsWith name "ses" ∨ jsEndsWith name "xes" ∨ jsEndsWith name "zes" then
    name.dropRight 2
  else if jsEndsWith name "ren" ∧ name.length > 4 then name.dropRight 3
  else if jsEndsWith name "s" ∧ ¬jsEndsWith name "ss" then name.dropRight 1
  else "item"

/-! ## Element-line parsing -/

/-- Length of the leading tag-name run: stop at `#`, space or `{`; a `.` only
continues the tag when followed by an uppercase letter (member expression such
as `Form.Input`), otherwise it starts the class selectors. -/
def tagLen : List Char → Nat
  | [] => 0
  | c :: rest =>
    if c = '#' ∨ c = ' ' ∨ c = '{' then 0
    else if c = '.' then
      if (rest.head?.map Char.isUpper).getD false then 1 + tagLen rest else 0
    else 1 + tagLen rest

/-- Length of a literal selector name: stop at `.`, `#`, space or `{`. -/
def selNameLen : List Char → Nat
  | [] => 0
  | c :: rest =>
    if c = '.' ∨ c = '#' ∨ c = ' ' ∨ c = '{' then 0 else 1 + selNameLen rest

/-- The selector loop of `parseElement`: consume a run of
`#id`/`#{expr}`/`.class`/`.{expr}` tokens, resolving literal class tokens
through the reverse class-alias map.  A repeated `#` overwrites the previous
id, as the source's assignment does.  `fuel` bounds the loop; each iteration
consumes at least one character, so `fuel = cs.length` never runs out. -/
def parseSels (ctx : Ctx) : Nat → List Char → Option Sel → List Sel →
    Option Sel × List Sel × List Char
  | 0, cs, id, classes => (id, classes, cs)
  | fuel + 1, cs, id, classes =>
    match cs with
    | '#' :: '{' :: rest2 =>
      let e := findBalancedBraceRel ('{' :: rest2)
      let value := (rest2.take (e - 1)).asString
      parseSels ctx fuel (rest2.drop e) (some (Sel.expr value)) classes
    | '#' :: rest =>
      let n := selNameLen rest
      parseSels ctx fuel (rest.drop n) (some (Sel.str (rest.take n).asString)) classes
    | '.' :: '{' :: rest2 =>
      let e := findBalancedBraceRel ('{' :: rest2)
      let value := (rest2.take (e - 1)).asString
      parseSels ctx fuel (rest2.drop e) id (classes ++ [Sel.expr value])
    | '.' :: rest =>
      let n := selNameLen rest
      let cls := (rest.take n).asString
      parseSels ctx fuel (rest.drop n) id (classes ++ [Sel.str (jsGetOr ctx.reverseClass cls cls)])
    | _ => (id, classes, cs)

/-- `/^[a-zA-Z_$]/` -- an identifier-start character. -/
def isIdentStartChar (c : Char) : Bool := c.isAlpha || c = '_' || c = '$'

/-- `looksLikeProps(block)`: the `{...}` block is a props block when it starts
with a spread or some top-level comma part starts with an identifier
character. -/
def looksLikeProps (block : String) : Bool :=
  if jsStartsWith block "..." then true
  else (splitProps block).any fun part =>
    let t := jsTrim part
    t ≠ "" && (jsStartsWith t "..." || (t.toList.head?.map isIdentStartChar).getD false)

/-- `parsePropsBlock(block)`: split on top-level commas; each part becomes a
spread (`...` -), a boolean flag (no colon) or a `key:value` pair whose key is
resolved through the reverse prop-alias map.  Values in the fixed
`STRING_PROPS` set that pass the value-shape heuristic become string props. -/
def parsePropsBlock (block : String) (ctx : Ctx) : List PropV :=
  (splitProps block).filterMap fun part =>
    let t := jsTrim part
    if t = "" then none
    else if jsStartsWith t "..." then some (.spread (jsSliceFrom t 3))
    else
      let colonIdx := jsIndexOf t ':'
      if colonIdx = -1 then some (.boolean (jsGetOr ctx.reverseProp t t))
      else
        let key := jsSlice t 0 colonIdx
        let val0 := jsSliceFrom t (colonIdx + 1)
        let val :=
          if jsStartsWith val0 "\"" ∧ jsEndsWith val0 "\"" then jsSlice val0 1 (-1) else val0
        let name := jsGetOr ctx.reverseProp key key
        if STRING_PROPS.contains name ∧ isSimpleStringValue val then some (.str name val)
        else some (.expr name val)

/-- `parseElement(trimmed)`: tag (implicit `div` when the line starts with a
selector), component-alias resolution, selectors (skipped entirely for member
expressions), optional props block, optional trailing inline child. -/
def parseElement (ctx : Ctx) (trimmed : String) : Node :=
  let cs0 := trimmed.toList
  let (tag0, afterTag) :=
    match cs0.head? with
    | some '.' => ("div", cs0)
    | some '#' => ("div", cs0)
    | _ =>
      let n := tagLen cs0
      ((cs0.take n).asString, cs0.drop n)
  let tag := jsGetOr ctx.reverseComp tag0 tag0
  let isMemberExpr := tag.toList.contains '.'
  let (id, classes, afterSels) :=
    if isMemberExpr then (none, [], afterTag)
    else parseSels ctx afterTag.length afterTag none []
  let afterWs := afterSels.dropWhile (· = ' ')
  let (props, afterProps) :=
    match afterWs with
    | '{' :: _ =>
      let e := findBalancedBraceRel afterWs
      let block := ((afterWs.drop 1).take (e - 1)).asString
      if looksLikeProps block then
        (parsePropsBlock block ctx, (afterWs.drop (e + 1)).dropWhile (· = ' '))
      else ([], afterWs)
    | _ => ([], afterWs)
  let rest := afterProps.asString
  let inlineChild :=
    if rest = "" then none
    else if jsStartsWith rest "\"" ∧ jsEndsWith rest "\"" then
      some (Node.text (jsSlice rest 1 (-1)) [])
    else if jsStartsWith rest "(" ∧ jsEndsWith rest ")" then
      some (Node.exprNode (jsSlice rest 1 (-1)) [])
    else none
  .element tag id classes props inlineChild []

/-! ## Line classification -/

/-- `parseTernary`, parametrised by the recursive classifier: split after `?`
on the first `>` for the condition, then split the remainder on the first
unnested `|` into consequent and alternate, classifying each side. -/
def parseTernaryWith (recur : String → Node) (trimmed : String) : Node :=
  let afterQ := jsSliceFrom trimmed 1
  let gtIdx := jsIndexOf afterQ '>'
  let condition := jsTrim (jsSlice afterQ 0 gtIdx)
  let rest := jsTrim (jsSliceFrom afterQ (gtIdx + 1))
  let pipeIdx := findUnbraced rest '|'
  let consStr := jsTrim (jsSlice rest 0 pipeIdx)
  let altStr := jsTrim (jsSliceFrom rest (pipeIdx + 1))
  .ternary condition (recur consStr) (recur altStr) []

/-- `parseConditional`, parametrised by the recursive classifier: split after
`?` on the first `>`; the remainder is the inline child. -/
def parseConditionalWith (recur : String → Node) (trimmed : String) : Node :=
  let afterQ := jsSliceFrom trimmed 1
  let gtIdx := jsIndexOf afterQ '>'
  let condition := jsTrim (jsSlice afterQ 0 gtIdx)
  let rest := jsTrim (jsSliceFrom afterQ (gtIdx + 1))
  .conditional condition (recur rest) []

/-- `parseMap`, parametrised by the recursive classifier: split after `*` on
the first `>`; the iteration parameter is derived by `singularize` from the
collection expression. -/
def parseMapWith (recur : String → Node) (trimmed : String) : Node :=
  let afterStar := jsSliceFrom trimmed 1
  let gtIdx := jsIndexOf afterStar '>'
  let collection := jsTrim (jsSlice afterStar 0 gtIdx)
  let rest := jsTrim (jsSliceFrom afterStar (gtIdx + 1))
  .mapNode collection (singularize collection) (recur rest) []

/-- `classifyAndParse(trimmed)`: dispatch a body line on its leading token.
`fuel` bounds the nesting of marker lines inside marker lines; each recursive
call strips at least the marker sigil and the `>`, so `fuel = trimmed.length`
never runs out. -/
def classifyAndParse : Nat → Ctx → String → Node
  | 0, ctx, trimmed => parseElement ctx trimmed
  | fuel + 1, ctx, trimmed =>
    if trimmed = "_" then .fragment []
    else if jsStartsWith trimmed "?" ∧ trimmed.toList.contains '>' ∧
        trimmed.toList.contains '|' then
      parseTernaryWith (classifyAndParse fuel ctx) trimmed
    else if jsStartsWith trimmed "?" ∧ trimmed.toList.contains '>' then
      parseConditionalWith (classifyAndParse fuel ctx) trimmed
    else if jsStartsWith trimmed "*" ∧ trimmed.toList.contains '>' then
      parseMapWith (classifyAndParse fuel ctx) trimmed
    else if jsStartsWith trimmed "\"" ∧ jsEndsWith trimmed "\"" then
      .text (jsSlice trimmed 1 (-1)) []
    else if jsStartsWith trimmed "(" ∧ jsEndsWith trimmed ")" then
      .exprNode (jsSlice trimmed 1 (-1)) []
    else parseElement ctx trimmed

/-- `parseTernary` as in the source, at a given recursion budget. -/
def parseTernary (fuel : Nat) (ctx : Ctx) : String → Node :=
  parseTernaryWith (classifyAndParse fuel ctx)

/-- `parseConditional` as in the source, at a given recursion budget. -/
def parseConditional (fuel : Nat) (ctx : Ctx) : String → Node :=
  parseConditionalWith (classifyAndParse fuel ctx)

/-- `parseMap` as in the source, at a given recursion budget. -/
def parseMap (fuel : Nat) (ctx : Ctx) : String → Node :=
  parseMapWith (classifyAndParse fuel ctx)

/-! ## Indentation tree build -/

/-- A stack frame of the indentation walk: the parsed node, its recorded
indent, the children collected so far, and whether this is the synthetic
frame for a `?`/`*` marker's inline child. -/
structure Frame where
  node : Node
  indent : Nat
  kids : List Node
  syn : Bool

/-- State of the indentation walk: finished roots plus the frame stack
(head is the top). -/
structure BState where
  rootKids : List Node
  stack : List Frame

/-- Bake a frame's collected children into its node. -/
def finalizeNode (f : Frame) : Node :=
  f.node.withChildren (f.node.childrenOf ++ f.kids)

/-- Pop one frame: bake its children, then attach the finished node — to the
marker node's `child` field for a synthetic frame, to the parent frame's
children otherwise, or to the roots when the stack empties. -/
def popOne : BState → BState
  | ⟨roots, []⟩ => ⟨roots, []⟩
  | ⟨roots, f :: rest⟩ =>
    let fin := finalizeNode f
    if f.syn then
      match rest with
      | g :: rest2 => ⟨roots, { g with node := g.node.withChild fin } :: rest2⟩
      | [] => ⟨roots, []⟩
    else
      match rest with
      | g :: rest2 => ⟨roots, { g with kids := g.kids ++ [fin] } :: rest2⟩
      | [] => ⟨roots ++ [fin], []⟩

/-- Pop while the top frame's indent is `≥ lineIndent` (finds the parent of
the new line).  Bounded by the stack length, which each pop decreases. -/
def popWhileGo (lineIndent : Nat) : Nat → BState → BState
  | 0, st => st
  | n + 1, st =>
    match st.stack with
    | [] => st
    | f :: _ => if f.indent ≥ lineIndent then popWhileGo lineIndent n (popOne st) else st

/-- Pop all frames whose indent is `≥ lineIndent`. -/
def popWhile (lineIndent : Nat) (st : BState) : BState :=
  popWhileGo lineIndent st.stack.length st

/-- Is the node an element?  (The synthetic-frame special case applies only
to element inline children.) -/
def isElem : Node → Bool
  | .element _ _ _ _ _ _ => true
  | _ => false

/-- Process one body line: classify it, pop to the parent, push its frame,
and for `?`/`*` markers whose inline child is an element additionally push
the synthetic child frame one indent unit deeper. -/
def buildStep (ctx : Ctx) (st : BState) (rawLine : String) : BState :=
  let trimmed := jsTrimStart rawLine
  let lineIndent := indentOf rawLine
  if trimmed = "" then st
  else
    let node := classifyAndParse trimmed.length ctx trimmed
    let st1 := popWhile lineIndent st
    let st2 : BState := ⟨st1.rootKids, ⟨node, lineIndent, [], false⟩ :: st1.stack⟩
    match node with
    | .conditional _ child _ =>
      if isElem child then ⟨st2.rootKids, ⟨child, lineIndent + 1, [], true⟩ :: st2.stack⟩
      else st2
    | .mapNode _ _ child _ =>
      if isElem child then ⟨st2.rootKids, ⟨child, lineIndent + 1, [], true⟩ :: st2.stack⟩
      else st2
    | _ => st2

/-- Pop every remaining frame at the end of the walk. -/
def drainGo : Nat → BState → BState
  | 0, st => st
  | n + 1, st =>
    match st.stack with
    | [] => st
    | _ :: _ => drainGo n (popOne st)

/-- `buildTree(lines)`: fold the indentation walk over the body lines and
collect the roots. -/
def buildTree (lines : List String) (ctx : Ctx) : List Node :=
  let st := lines.foldl (buildStep ctx) ⟨[], []⟩
  (drainGo st.stack.length st).rootKids

/-! ## Header pass and tree-level decode -/

/-- `parseAliasHeader(str, map)`: comma-separated `canonical=alias` entries;
entries without `=` are skipped; the map gains `alias → canonical`. -/
def parseAliasHeader (str : String) (m : List (String × String)) :
    List (String × String) :=
  (splitOnChar str ',').foldl
    (fun m entry =>
      let trimmed := jsTrim entry
      if trimmed = "" then m
      else
        let eq := jsIndexOf trimmed '='
        if eq = -1 then m
        else jsMapSet m (jsTrim (jsSliceFrom trimmed (eq + 1))) (jsTrim (jsSlice trimmed 0 eq)))
    m

/-- Pass 1 of `decode`: extract `@C`/`@P`/`@S` alias headers and the doctype
marker; the remaining lines are the body. -/
def passHeaders (lines : List String) : Ctx × List String × Bool :=
  lines.foldl
    (fun acc line =>
      let (ctx, body, doct) := acc
      if jsStartsWith line "@C " then
        ({ ctx with reverseComp := parseAliasHeader (jsSliceFrom line 3) ctx.reverseComp },
         body, doct)
      else if jsStartsWith line "@P " then
        ({ ctx with reverseProp := parseAliasHeader (jsSliceFrom line 3) ctx.reverseProp },
         body, doct)
      else if jsStartsWith line "@S " then
        ({ ctx with reverseClass := parseAliasHeader (jsSliceFrom line 3) ctx.reverseClass },
         body, doct)
      else if jsStartsWith (jsTrim line) "!DOCTYPE" ∨ jsStartsWith (jsTrim line) "!doctype" then
        (ctx, body, true)
      else (ctx, body ++ [line], doct))
    (⟨[], [], []⟩, [], false)

/-- Drop leading and trailing blank lines of the body. -/
def trimBlankLines (lines : List String) : List String :=
  ((lines.dropWhile (fun l => jsTrim l = "")).reverse.dropWhile (fun l => jsTrim l = "")).reverse

/-- The tree the decoder builds from notation text (passes 1 and 2 of
`decode`, before a target renderer runs). -/
def decodeTree (jsxn : String) : List Node :=
  if jsTrim jsxn = "" then []
  else
    let lines := splitOnChar jsxn '\n'
    let (ctx, body0, _) := passHeaders lines
    let body := trimBlankLines body0
    buildTree body ctx

/-! ## Alias engine -/

/-- Forward alias tables (`canonical → short code`), one per namespace. -/
structure Aliases where
  components : List (String × String)
  props : List (String × String)
  classes : List (String × String)

/-- Stable insert for a descending key sort: the new element goes after every
already-placed element whose key is `≥` its own, preserving encounter order on
ties (JavaScript `Array.prototype.sort` is stable). -/
def sortInsertDesc (key : α → Nat) (x : α) : List α → List α
  | [] => [x]
  | y :: ys => if key x ≤ key y then y :: sortInsertDesc key x ys else x :: y :: ys

/-- Stable sort by a numeric key, descending (`[...].sort((a, b) => keyB - keyA)`). -/
def sortByDesc (key : α → Nat) (l : List α) : List α :=
  l.foldl (fun acc x => sortInsertDesc key x acc) []

/-- The `onX`-prop scan: try each letter of the event name from the end,
lowercased, returning the first unused one. -/
def scanEventLetters (eventPart : List Char) (used : List String) : Option String :=
  eventPart.reverse.findSome? fun ch =>
    let s := (Char.toLower ch).toString
    if used.contains s then none else some s

/-- The `onX`-prop scan, second stage: try each adjacent two-letter pair of
the event name, lowercased. -/
def scanEventPairs (eventPart : List Char) (used : List String) : Option String :=
  (eventPart.zip eventPart.tail).findSome? fun p =>
    let s := (Char.toLower p.1).toString ++ (Char.toLower p.2).toString
    if used.contains s then none else some s

/-- Generic alias growth: append successive original letters (case preserved
for components, lowercased for props) until the prefix is unused; the final
full-length prefix is returned even when still used. -/
def growAlias (used : List String) (isComponent : Bool) : List Char → String → String
  | [], al => al
  | c :: rest, al =>
    let al2 := al ++ (if isComponent then c else c.toLower).toString
    if used.contains al2 then growAlias used isComponent rest al2 else al2

/-- `findUniqueAlias(name, usedAliases, isComponent)`: event-prop letter scan
for `on`-prefixed props, otherwise first-letter-then-grow. -/
def findUniqueAlias (name : String) (used : List String) (isComponent : Bool) : String :=
  let generic :=
    let firstChar :=
      if isComponent then (name.toList.headD ' ').toUpper else (name.toList.headD ' ').toLower
    if ¬used.contains firstChar.toString then firstChar.toString
    else growAlias used isComponent (name.toList.drop 1) firstChar.toString
  if ¬isComponent ∧ jsStartsWith name "on" ∧ name.length > 2 then
    let eventPart := (jsSliceFrom name 2).toList
    match scanEventLetters eventPart used with
    | some s => s
    | none =>
      match scanEventPairs eventPart used with
      | some s => s
      | none => generic
  else generic

/-- `findPropAlias`. -/
def findPropAlias (name : String) (used : List String) : String :=
  findUniqueAlias name used false

/-- Assign aliases down a sorted candidate list, threading the used set. -/
def assignWith (find : String → List String → String) :
    List (String × Nat) → List String → List (String × String)
  | [], _ => []
  | (name, _) :: rest, used =>
    let a := find name used
    (name, a) :: assignWith find rest (used ++ [a])

/-- `generateComponentAliases`: every component name longer than one
character is a candidate, sorted by descending frequency. -/
def generateComponentAliases (freq : List (String × Nat)) : List (String × String) :=
  let candidates := sortByDesc (fun p => p.2) (freq.filter fun p => p.1.length > 1)
  assignWith (fun n u => findUniqueAlias n u true) candidates []

/-- `generatePropAliases`: only props with frequency `≥ 2` and name length
`> 4` are candidates, sorted by descending frequency. -/
def generatePropAliases (freq : List (String × Nat)) : List (String × String) :=
  let candidates :=
    sortByDesc (fun p => p.2) (freq.filter fun p => p.2 ≥ 2 ∧ p.1.length > 4)
  assignWith findPropAlias candidates []

/-- The class-name delimiter class `/[-:]/`. -/
def isDelim (c : Char) : Bool := c = '-' ∨ c = ':'

/-- Initials of each `-`/`:`-delimited segment (empty segments contribute
nothing, as `s[0] ?? ''` does). -/
def initialsOf (segs : List String) : String :=
  (segs.filterMap fun s => s.toList.head?).asString

/-- `findClassAlias(name, usedAliases)`: the four-strategy class-alias
search; every strategy's candidate must be unused and strictly shorter than
the name, and the name itself is returned when all strategies fail. -/
def findClassAlias (name : String) (used : List String) : String :=
  let segments := splitPred name isDelim
  let alias1 := initialsOf segments
  if alias1 ≠ "" ∧ ¬used.contains alias1 ∧ alias1.length < name.length then alias1
  else
    let lastSeg := segments.getLastD ""
    let alias2 := alias1 ++ (lastSeg.toList.getLastD ' ').toString
    if lastSeg.length > 1 ∧ ¬used.contains alias2 ∧ alias2.length < name.length then alias2
    else
      let headSeg := segments.headD ""
      let alias3 := headSeg.take 2 ++ initialsOf (segments.drop 1)
      if headSeg.length ≥ 2 ∧ ¬used.contains alias3 ∧ alias3.length < name.length then alias3
      else
        let stripped := (name.toList.filter fun c => !isDelim c).asString
        match (List.range' 2 (name.length - 2)).findSome? (fun len =>
          let a := stripped.take len
          if ¬used.contains a ∧ a.length < name.length then some a else none) with
        | some a => a
        | none => name

/-- Assign class aliases down the savings-sorted candidate list; an alias is
installed (and reserved) only when strictly shorter than the name. -/
def assignClasses : List (String × Nat) → List String → List (String × String)
  | [], _ => []
  | (name, _) :: rest, used =>
    let a := findClassAlias name used
    if a.length < name.length then (name, a) :: assignClasses rest (used ++ [a])
    else assignClasses rest used

/-- `generateClassAliases`: classes with frequency `≥ 2` and length `> 3`,
ranked by the `frequency × length` savings heuristic. -/
def generateClassAliases (freq : List (String × Nat)) : List (String × String) :=
  let candidates :=
    sortByDesc (fun p => p.2 * p.1.length) (freq.filter fun p => p.2 ≥ 2 ∧ p.1.length > 3)
  assignClasses candidates []

/-- Frequency tables gathered by the front end. -/
structure Freqs where
  components : List (String × Nat)
  props : List (String × Nat)
  classes : List (String × Nat)

/-- `generateAliases(frequencies)`. -/
def generateAliases (f : Freqs) : Aliases :=
  ⟨generateComponentAliases f.components, generatePropAliases f.props,
   generateClassAliases f.classes⟩

/-- `formatHeaders(aliases)`: up to three `@C`/`@P`/`@S` header lines of
comma-separated `canonical=alias` pairs, omitted when empty. -/
def formatHeaders (al : Aliases) : String :=
  let fmt : List (String × String) → String := fun m =>
    String.intercalate ", " (m.map fun p => p.1 ++ "=" ++ p.2)
  let lines :=
    (if al.components ≠ [] then ["@C " ++ fmt al.components] else []) ++
    (if al.props ≠ [] then ["@P " ++ fmt al.props] else []) ++
    (if al.classes ≠ [] then ["@S " ++ fmt al.classes] else [])
  String.intercalate "\n" lines

/-! ## Frequency analysis over the tree

The source's `analyze` walks the Babel AST of the original source; at the
tree level the same counts are: component tags (uppercase-initial,
non-member), prop names other than `className`/`id` (spreads skipped), and
literal class tokens. -/

/-- Bump a frequency count (JavaScript `map.set(k, (map.get(k) ?? 0) + 1)`). -/
def freqBump (m : List (String × Nat)) (k : String) : List (String × Nat) :=
  if m.any (fun p => p.1 = k) then
    m.map fun p => if p.1 = k then (p.1, p.2 + 1) else p
  else m ++ [(k, 1)]

/-- Frequency contribution of one element's tag and attributes. -/
def freqsOfOpening (tag : String) (classes : List Sel) (props : List PropV)
    (f : Freqs) : Freqs :=
  let comps :=
    if ¬tag.toList.contains '.' ∧ (tag.toList.headD ' ').isUpper then
      freqBump f.components tag
    else f.components
  let classCounts := classes.foldl (fun (m : List (String × Nat)) s =>
    match s with
    | .str v => freqBump m v
    | .expr _ => m) f.classes
  let propCounts := props.foldl (fun (m : List (String × Nat)) p =>
    match p with
    | .spread _ => m
    | .boolean n => freqBump m n
    | .str n _ => freqBump m n
    | .expr n _ => freqBump m n) f.props
  ⟨comps, propCounts, classCounts⟩

mutual

/-- Pre-order frequency walk over a node. -/
def freqsOfNode : Node → Freqs → Freqs
  | .fragment children, f => freqsOfList children f
  | .element tag _ classes props inlineChild children, f =>
    let f1 := freqsOfOpening tag classes props f
    let f2 := match inlineChild with
      | some ic => freqsOfNode ic f1
      | none => f1
    freqsOfList children f2
  | .text _ children, f => freqsOfList children f
  | .exprNode _ children, f => freqsOfList children f
  | .conditional _ child children, f => freqsOfList children (freqsOfNode child f)
  | .ternary _ a b children, f => freqsOfList children (freqsOfNode b (freqsOfNode a f))
  | .mapNode _ _ child children, f => freqsOfList children (freqsOfNode child f)

/-- Frequency walk over a node list. -/
def freqsOfList : List Node → Freqs → Freqs
  | [], f => f
  | n :: rest, f => freqsOfList rest (freqsOfNode n f)

end

/-- Frequency tables of a document. -/
def freqsOf (roots : List Node) : Freqs :=
  freqsOfList roots ⟨[], [], []⟩

/-! ## Notation writer

The tree-level writer corresponding to the AST emitter `emit`/`emitNode`:
one space of indentation per nesting level, alias maps applied with `??`
(nullish) semantics, marker lines for conditional/ternary/map nodes. -/

/-- `' '.repeat(level)`. -/
def indent1 (level : Nat) : String :=
  (List.replicate level ' ').asString

/-- `formatProps(props)`: spreads as `...expr`, booleans as the aliased
name, valued props as `alias:value` — values are never re-quoted. -/
def formatProps (props : List PropV) (propAlias : List (String × String)) : String :=
  if props = [] then ""
  else
    let parts := props.map fun p =>
      match p with
      | .spread v => "..." ++ v
      | .boolean n => jsGetNullish propAlias n n
      | .str n v => jsGetNullish propAlias n n ++ ":" ++ v
      | .expr n v => jsGetNullish propAlias n n ++ ":" ++ v
    "\x7b" ++ String.intercalate ", " parts ++ "\x7d"

/-- The tag-line of an element: resolved tag, id selector, class selectors
(resolved through the class alias table), props block. -/
def elementLine (al : Aliases) (tag : String) (id : Option Sel) (classes : List Sel)
    (props : List PropV) : String :=
  let tagName := jsGetNullish al.components tag tag
  let idPart := match id with
    | some (.str v) => "#" ++ v
    | some (.expr v) => "#\x7b" ++ v ++ "\x7d"
    | none => ""
  let classPart := classes.foldl (fun acc s =>
    match s with
    | .str v => acc ++ "." ++ jsGetNullish al.classes v v
    | .expr v => acc ++ ".\x7b" ++ v ++ "\x7d") ""
  let propsStr := formatProps props al.props
  tagName ++ idPart ++ classPart ++ (if propsStr ≠ "" then " " ++ propsStr else "")

/-- The inline-child suffix of an element line. -/
def inlinePart : Option Node → String
  | some (.text v _) => " \"" ++ jsTrim v ++ "\""
  | some (.exprNode v _) => " (" ++ v ++ ")"
  | some _ => ""
  | none => ""

mutual

/-- Write one node as notation lines at the given level. -/
def writeNode (al : Aliases) : Node → Nat → List String
  | .fragment children, level =>
    (indent1 level ++ "_") :: writeList al children (level + 1)
  | .text v _, level =>
    let t := jsTrim v
    if t ≠ "" then [indent1 level ++ "\"" ++ t ++ "\""] else []
  | .exprNode v _, level => [indent1 level ++ "(" ++ v ++ ")"]
  | .conditional cond child _, level =>
    let childLines := writeNode al child 0
    (indent1 level ++ "?" ++ cond ++ " > " ++ jsTrim (childLines.headD ""))
      :: (childLines.drop 1).map (fun l => indent1 level ++ " " ++ l)
  | .ternary cond a b _, level =>
    let consLines := writeNode al a 0
    let altLines := writeNode al b 0
    [indent1 level ++ "?" ++ cond ++ " > " ++ jsTrim (consLines.headD "") ++ " | " ++
      jsTrim (altLines.headD "")]
  | .mapNode coll _ child _, level =>
    let childLines := writeNode al child 0
    (indent1 level ++ "*" ++ coll ++ " > " ++ jsTrim (childLines.headD ""))
      :: (childLines.drop 1).map (fun l => indent1 level ++ " " ++ l)
  | .element tag id classes props inlineChild children, level =>
    let line := elementLine al tag id classes props ++ inlinePart inlineChild
    match children with
    | [] => [indent1 level ++ line]
    | _ :: _ => (indent1 level ++ line) :: writeList al children (level + 1)

/-- Write a node list. -/
def writeList (al : Aliases) : List Node → Nat → List String
  | [], _ => []
  | n :: rest, level => writeNode al n level ++ writeList al rest level

end

/-- Write a document: generate the aliases for the tree, emit headers (when
non-empty) and the notation body, as `encode` does. -/
def writeDoc (roots : List Node) : String :=
  let al := generateAliases (freqsOf roots)
  let headers := formatHeaders al
  let body := String.intercalate "\n" (writeList al roots 0)
  if headers ≠ "" then headers ++ "\n\n" ++ body else body

/-! ## JSX renderer -/

/-- `'  '.repeat(level)` — two spaces per level. -/
def ind2 (level : Nat) : String :=
  (List.replicate (2 * level) ' ').asString

/-- The `.value` of an inline child (`text` or `expression` node); JavaScript
property access on any other object yields `undefined`, which a template
literal renders as the string `undefined`. -/
def inlineValue : Node → String
  | .text v _ => v
  | .exprNode v _ => v
  | _ => "undefined"

/-- Is this inline child a text node? -/
def isTextNode : Node → Bool
  | .text _ _ => true
  | _ => false

/-- The JSX opening-tag attribute string of an element. -/
def jsxOpenTag (tag : String) (id : Option Sel) (classes : List Sel)
    (props : List PropV) : String :=
  let idPart := match id with
    | some (.str v) => " id=\"" ++ v ++ "\""
    | some (.expr v) => " id=\x7b" ++ v ++ "\x7d"
    | none => ""
  let classPart :=
    match classes with
    | [] => ""
    | _ =>
      let hasExpr := classes.any fun s => match s with | .expr _ => true | .str _ => false
      let vals := classes.map fun s => match s with | .str v => v | .expr v => v
      if hasExpr ∧ classes.length = 1 then
        " className=\x7b" ++ vals.headD "" ++ "\x7d"
      else if hasExpr then
        let parts := classes.map fun s =>
          match s with
          | .str v => "\"" ++ v ++ "\""
          | .expr v => v
        " className=\x7b" ++ String.intercalate " + \" \" + " parts ++ "\x7d"
      else " className=\"" ++ String.intercalate " " vals ++ "\""
  let propPart := props.foldl (fun acc p =>
    match p with
    | .spread v => acc ++ " \x7b..." ++ v ++ "\x7d"
    | .boolean n => acc ++ " " ++ n
    | .str n v => acc ++ " " ++ n ++ "=\"" ++ v ++ "\""
    | .expr n v => acc ++ " " ++ n ++ "=\x7b" ++ v ++ "\x7d") ""
  tag ++ idPart ++ classPart ++ propPart

mutual

/-- `emitJSX(node, level)`. -/
def emitJSX : Node → Nat → List String
  | .fragment children, level =>
    (ind2 level ++ "<>") :: emitJSXList children (level + 1) ++ [ind2 level ++ "</>"]
  | .element tag id classes props inlineChild children, level =>
    let openTag := jsxOpenTag tag id classes props
    let ind := ind2 level
    match children, inlineChild with
    | [], none => [ind ++ "<" ++ openTag ++ " />"]
    | [], some ic =>
      if isTextNode ic then
        [ind ++ "<" ++ openTag ++ ">" ++ inlineValue ic ++ "</" ++ tag ++ ">"]
      else
        [ind ++ "<" ++ openTag ++ ">\x7b" ++ inlineValue ic ++ "\x7d</" ++ tag ++ ">"]
    | _ :: _, _ =>
      let inlineLines :=
        match inlineChild with
        | some ic =>
          if isTextNode ic then [ind2 (level + 1) ++ inlineValue ic]
          else [ind2 (level + 1) ++ "\x7b" ++ inlineValue ic ++ "\x7d"]
        | none => []
      (ind ++ "<" ++ openTag ++ ">") :: inlineLines ++
        emitJSXList children (level + 1) ++ [ind ++ "</" ++ tag ++ ">"]
  | .text v _, level => [ind2 level ++ v]
  | .exprNode v _, level => [ind2 level ++ "\x7b" ++ v ++ "\x7d"]
  | .conditional cond child _, level =>
    let ind := ind2 level
    let childLines := emitJSX child 0
    if childLines.length = 1 then
      [ind ++ "\x7b" ++ cond ++ " && (" ++ jsTrim (childLines.headD "") ++ ")\x7d"]
    else
      (ind ++ "\x7b" ++ cond ++ " && (") ::
        childLines.map (fun cl => ind ++ "  " ++ jsTrimStart cl) ++ [ind ++ ")\x7d"]
  | .ternary cond a b _, level =>
    let ind := ind2 level
    let consLines := emitJSX a 0
    let altLines := emitJSX b 0
    if consLines.length = 1 ∧ altLines.length = 1 then
      [ind ++ "\x7b" ++ cond ++ " ? (" ++ jsTrim (consLines.headD "") ++ ") : (" ++
        jsTrim (altLines.headD "") ++ ")\x7d"]
    else
      (ind ++ "\x7b" ++ cond ++ " ? (") ::
        consLines.map (fun cl => ind ++ "  " ++ jsTrimStart cl) ++
        ((ind ++ ") : (") :: altLines.map (fun al => ind ++ "  " ++ jsTrimStart al)) ++
        [ind ++ ")\x7d"]
  | .mapNode coll param child _, level =>
    let ind := ind2 level
    let childLines := emitJSX child 0
    if childLines.length = 1 then
      [ind ++ "\x7b" ++ coll ++ ".map(" ++ param ++ " => (" ++ jsTrim (childLines.headD "") ++
        "))\x7d"]
    else
      (ind ++ "\x7b" ++ coll ++ ".map(" ++ param ++ " => (") ::
        childLines.map (fun cl => ind ++ "  " ++ jsTrimStart cl) ++ [ind ++ "))\x7d"]

/-- `emitJSX` over a child list. -/
def emitJSXList : List Node → Nat → List String
  | [], _ => []
  | n :: rest, level => emitJSX n level ++ emitJSXList rest level

end

/-! ## HTML renderer -/

/-- The fixed void-element set. -/
def VOID_ELEMENTS : List String :=
  ["area", "base", "br", "col", "embed", "hr", "img", "input",
   "link", "meta", "param", "source", "track", "wbr"]

/-- The fixed SVG self-closing tag set. -/
def SVG_SELF_CLOSING : List String :=
  ["circle", "ellipse", "line", "path", "polygon", "polyline", "rect",
   "stop", "use", "image", "animate", "animateMotion", "animateTransform", "set"]

/-- One step of the HTML prop fold: spreads are skipped, booleans become a
bare attribute, valued props a quoted attribute. -/
def htmlPropFold (acc : String) (p : PropV) : String :=
  match p with
  | .spread _ => acc
  | .boolean n => acc ++ " " ++ n
  | .str n v => acc ++ " " ++ n ++ "=\"" ++ v ++ "\""
  | .expr n v => acc ++ " " ++ n ++ "=\"" ++ v ++ "\""

/-- The HTML opening-tag attribute string: `class` instead of `className`,
every valued prop as a quoted string, spreads skipped silently. -/
def htmlOpenTag (tag : String) (id : Option Sel) (classes : List Sel)
    (props : List PropV) : String :=
  let idPart := match id with
    | some (.str v) => " id=\"" ++ v ++ "\""
    | some (.expr v) => " id=\"" ++ v ++ "\""
    | none => ""
  let classPart :=
    match classes with
    | [] => ""
    | _ =>
      let vals := classes.map fun s => match s with | .str v => v | .expr v => v
      " class=\"" ++ String.intercalate " " vals ++ "\""
  let propPart := props.foldl htmlPropFold ""
  tag ++ idPart ++ classPart ++ propPart

mutual

/-- `emitHTMLNode(node, level)`: fragments dissolve into their children;
JSX-only constructs degrade to an annotating comment plus best-effort
emission of the true branch.  The element branch is `emitHTMLElement`:
void elements lose their closing tag, childless SVG tags self-close,
spreads are skipped. -/
def emitHTMLNode : Node → Nat → List String
  | .fragment children, level => emitHTMLList children level
  | .element tag id classes props inlineChild children, level =>
    let ind := ind2 level
    let openTag := htmlOpenTag tag id classes props
    if VOID_ELEMENTS.contains tag then [ind ++ "<" ++ openTag ++ ">"]
    else
      match children, inlineChild with
      | [], none =>
        if SVG_SELF_CLOSING.contains tag then [ind ++ "<" ++ openTag ++ " />"]
        else [ind ++ "<" ++ openTag ++ "></" ++ tag ++ ">"]
      | [], some ic =>
        [ind ++ "<" ++ openTag ++ ">" ++ inlineValue ic ++ "</" ++ tag ++ ">"]
      | _ :: _, _ =>
        let inlineLines :=
          match inlineChild with
          | some ic => [ind2 (level + 1) ++ inlineValue ic]
          | none => []
        (ind ++ "<" ++ openTag ++ ">") :: inlineLines ++
          emitHTMLList children (level + 1) ++ [ind ++ "</" ++ tag ++ ">"]
  | .text v _, level => [ind2 level ++ v]
  | .exprNode v _, level => [ind2 level ++ "<!-- JSXN expression: " ++ v ++ " -->"]
  | .conditional cond child _, level =>
    (ind2 level ++ "<!-- JSXN conditional: " ++ cond ++ " -->") :: emitHTMLNode child level
  | .ternary cond a _ _, level =>
    (ind2 level ++ "<!-- JSXN ternary: " ++ cond ++ " -->") :: emitHTMLNode a level
  | .mapNode coll _ child _, level =>
    (ind2 level ++ "<!-- JSXN map: " ++ coll ++ " -->") :: emitHTMLNode child level

/-- `emitHTMLNode` over a child list. -/
def emitHTMLList : List Node → Nat → List String
  | [], _ => []
  | n :: rest, level => emitHTMLNode n level ++ emitHTMLList rest level

end

/-! ## Full decode -/

/-- Output format of `decode`. -/
inductive Format where
  | jsx
  | html
deriving Repr, DecidableEq

/-- The body of `decode` past the empty-input guard: header pass,
indentation tree build, then the chosen target renderer. -/
def decodeCore (s : String) (format : Format) : String :=
  let lines := splitOnChar s '\n'
  let (ctx, body0, hasDoctype) := passHeaders lines
  let body := trimBlankLines body0
  match body with
  | [] => if hasDoctype ∧ format = .html then "<!DOCTYPE html>" else ""
  | _ :: _ =>
    let roots := buildTree body ctx
    let emitted := roots.flatMap fun n =>
      match format with
      | .html => emitHTMLNode n 0
      | .jsx => emitJSX n 0
    let out := (if format = .html ∧ hasDoctype then ["<!DOCTYPE html>"] else []) ++ emitted
    String.intercalate "\n" out

/-- `decode(jsxn, options)`: the full decoder.  The input is an
`Option String` so that the JavaScript `null`/`undefined` arguments are
representable; `!jsxn || !jsxn.trim()` returns the empty string for
`null`/`undefined`, the empty string and whitespace-only strings alike. -/
def decode (jsxn : Option String) (format : Format) : String :=
  match jsxn with
  | none => ""
  | some s => if jsTrim s = "" then "" else decodeCore s format

/-! ## Front-end AST traversals

`hasJSX` (in the snippet encoder's entry point) and `containsJSX` (in the
file encoder) both walk the Babel AST looking for a `JSXElement` or
`JSXFragment`; only `hasJSX` carries the `MAX_DEPTH = 200` recursion cap.
The AST is modelled by its traversal-relevant shape: a `type` tag and the
child nodes reached through object values and arrays. -/

/-- A source-language AST node: its `type` and its traversed children. -/
inductive Ast where
  | mk (type : String) (children : List Ast)

/-- The `type` tag. -/
def Ast.typeOf : Ast → String
  | .mk t _ => t

mutual

/-- The `walk(node, depth)` of `hasJSX`: abort past `MAX_DEPTH = 200`,
report a `JSXElement`/`JSXFragment`, otherwise search the children at
`depth + 1`. -/
def hasJSXWalk : Ast → Nat → Bool
  | .mk t kids, depth =>
    if depth > 200 then false
    else if t = "JSXElement" ∨ t = "JSXFragment" then true
    else hasJSXWalkList kids (depth + 1)

/-- `hasJSXWalk` over the children (the found-flag short-circuit is `List.any`
in a pure setting). -/
def hasJSXWalkList : List Ast → Nat → Bool
  | [], _ => false
  | a :: rest, depth => hasJSXWalk a depth || hasJSXWalkList rest depth

end

/-- `hasJSX(ast)`: the walk starts at the program node with depth `0`. -/
def hasJSX (program : Ast) : Bool :=
  hasJSXWalk program 0

mutual

/-- The `walk` of `containsJSX` (file encoder): identical traversal but with
no depth cap. -/
def containsJSXWalk : Ast → Bool
  | .mk t kids =>
    if t = "JSXElement" ∨ t = "JSXFragment" then true
    else containsJSXWalkList kids

/-- `containsJSXWalk` over the children. -/
def containsJSXWalkList : List Ast → Bool
  | [] => false
  | a :: rest => containsJSXWalk a || containsJSXWalkList rest

end

/-- A linear AST chain: `chainAst 0` is a bare `JSXElement`, and
`chainAst (k+1)` wraps the chain in one more non-JSX node, so the
`JSXElement` sits at depth `k` below the root. -/
def chainAst : Nat → Ast
  | 0 => .mk "JSXElement" []
  | k + 1 => .mk "X" [chainAst k]

/-! ## Definitions used by the statements below -/

/-- Modelled from the spec: the singularization rules as the spec words them —
take the collection expression's final dotted segment, then apply, in order:
`-ies → -y`; `-ses`/`-xes`/`-zes` drop the trailing 2 characters; `-ren`
(length > 4) drops the trailing 3; a trailing `-s` not preceded by another
`s` drops 1; otherwise the literal token `item`. -/
def singularizeSpec (collection : String) : String :=
  let seg := (splitOnChar collection '.').getLastD collection
  if jsEndsWith seg "ies" then seg.dropRight 3 ++ "y"
  else if jsEndsWith seg "ses" ∨ jsEndsWith seg "xes" ∨ jsEndsWith seg "zes" then
    seg.dropRight 2
  else if jsEndsWith seg "ren" ∧ seg.length > 4 then seg.dropRight 3
  else if jsEndsWith seg "s" ∧ ¬jsEndsWith seg "ss" then seg.dropRight 1
  else "item"

/-- Is a prop a spread? -/
def isSpread : PropV → Bool
  | .spread _ => true
  | _ => false

/-- Projection: number of props of the first root when it is an element. -/
def rootPropsLen : List Node → Nat
  | .element _ _ _ props _ _ :: _ => props.length
  | _ => 0

/-- Projection: number of `children` collected on the first root when it is a
conditional marker node. -/
def rootCondOwnKids : List Node → Nat
  | .conditional _ _ cs :: _ => cs.length
  | _ => 0

/-- Projection: number of children inside the first root's inline child when
the first root is a conditional marker node. -/
def rootCondChildKids : List Node → Nat
  | .conditional _ child _ :: _ => child.childrenOf.length
  | _ => 0

/-- The empty alias-resolution context. -/
def emptyCtx : Ctx := ⟨[], [], []⟩

/-- A constructible tree whose prop value contains a top-level comma: the
decoder produces it from `div {a:"x, y"}` (the quotes protect the comma and
are then stripped). -/
def repCommaProp : Node := .element "div" none [] [.expr "a" "x, y"] none []

/-- Representative fragment: `_` with one text child. -/
def repFragment : Node := .fragment [.text "Hi" []]

/-- Representative element with id, class, string prop and inline text. -/
def repElement : Node :=
  .element "div" (some (.str "main")) [.str "card"] [.str "type" "text"]
    (some (.text "Hello" [])) []

/-- Representative root-level text node. -/
def repText : Node := .text "Hello World" []

/-- Representative root-level expression node. -/
def repExpr : Node := .exprNode "count + 1" []

/-- Representative conditional with a multi-line element child. -/
def repConditional : Node :=
  .conditional "isOpen" (.element "div" none [] [] none [.element "p" none [] [] none []]) []

/-- Representative ternary (its two component names get aliased). -/
def repTernary : Node :=
  .ternary "isLoggedIn" (.element "Dashboard" none [] [] none [])
    (.element "Login" none [] [] none []) []

/-- Representative map node (spec scenario `*items > li.item {key:item.id}`). -/
def repMap : Node :=
  .mapNode "items" "item"
    (.element "li" none [.str "item"] [.expr "key" "item.id"] none []) []

end JSXN

namespace JSXN

set_option maxRecDepth 16000

/-! ## Supporting lemmas -/

/-- `asString` inverts `toList`. -/
lemma asString_toList (s : String) : s.toList.asString = s := rfl

/-- `splitOnCharGo` on a chunk without the separator. -/
lemma splitOnCharGo_no_sep (sep : Char) (cs : List Char) (h : sep ∉ cs) :
    ∀ (cur : List Char) (acc : List String),
      splitOnCharGo sep cs cur acc = ((cur.reverse ++ cs).asString :: acc).reverse := by
  induction cs with
  | nil => intro cur acc; simp [splitOnCharGo]
  | cons c rest ih =>
    intro cur acc
    have hc : ¬c = sep := fun e => h (e ▸ List.mem_cons_self c rest)
    have hr : sep ∉ rest := fun hm => h (List.mem_cons_of_mem _ hm)
    simp only [splitOnCharGo, if_neg hc, ih hr]
    simp [List.append_assoc]

/-- A string without the separator splits into itself alone. -/
lemma splitOnChar_no_sep (s : String) (sep : Char) (h : sep ∉ s.toList) :
    splitOnChar s sep = [s] := by
  unfold splitOnChar
  rw [splitOnCharGo_no_sep sep s.toList h]
  simp only [List.reverse_cons, List.reverse_nil, List.nil_append, List.append_nil]
  exact congrArg (fun x => [x]) (asString_toList s)

/-- `singularize` agrees with the spec-worded rules everywhere. -/
lemma singularize_eq_spec (s : String) : singularize s = singularizeSpec s := by
  unfold singularize singularizeSpec
  cases hc : s.toList.contains '.' with
  | true => simp [hc]
  | false =>
    have hmem : '.' ∉ s.toList := by simpa using hc
    simp [hc, splitOnChar_no_sep s '.' hmem]

/-- Membership through a stable descending insert. -/
lemma mem_sortInsertDesc {α : Type} (key : α → Nat) (x y : α) (l : List α) :
    x ∈ sortInsertDesc key y l ↔ x = y ∨ x ∈ l := by
  induction l with
  | nil => simp [sortInsertDesc]
  | cons z zs ih =>
    by_cases h : key y ≤ key z
    · simp only [sortInsertDesc, if_pos h, List.mem_cons, ih]
      tauto
    · simp only [sortInsertDesc, if_neg h, List.mem_cons]

/-- Membership through the insertion-sort fold. -/
lemma mem_sortByDesc_fold {α : Type} (key : α → Nat) (l : List α) :
    ∀ (acc : List α) (x : α),
      x ∈ l.foldl (fun acc e => sortInsertDesc key e acc) acc ↔ x ∈ acc ∨ x ∈ l := by
  induction l with
  | nil => intro acc x; simp
  | cons e es ih =>
    intro acc x
    simp only [List.foldl_cons, ih, mem_sortInsertDesc, List.mem_cons]
    tauto

/-- Membership is preserved by the stable sort. -/
lemma mem_sortByDesc {α : Type} (key : α → Nat) (l : List α) (x : α) :
    x ∈ sortByDesc key l ↔ x ∈ l := by
  unfold sortByDesc
  rw [mem_sortByDesc_fold]
  simp

/-- Every name in `assignWith`'s output is a candidate name. -/
lemma mem_assignWith (find : String → List String → String) :
    ∀ (cands : List (String × Nat)) (used : List String) (n a : String),
      (n, a) ∈ assignWith find cands used → n ∈ cands.map Prod.fst := by
  intro cands
  induction cands with
  | nil => intro used n a h; simp [assignWith] at h
  | cons c rest ih =>
    intro used n a h
    obtain ⟨name, cnt⟩ := c
    simp only [assignWith, List.mem_cons, Prod.mk.injEq] at h
    rcases h with ⟨h1, _⟩ | h2
    · simp [h1]
    · exact List.mem_cons_of_mem _ (ih _ n a h2)

/-- Every entry of `assignClasses`'s output has a candidate name and a
strictly shorter alias. -/
lemma mem_assignClasses :
    ∀ (cands : List (String × Nat)) (used : List String) (n a : String),
      (n, a) ∈ assignClasses cands used →
        n ∈ cands.map Prod.fst ∧ a.length < n.length := by
  intro cands
  induction cands with
  | nil => intro used n a h; simp [assignClasses] at h
  | cons c rest ih =>
    intro used n a h
    obtain ⟨name, cnt⟩ := c
    by_cases hlen : (findClassAlias name used).length < name.length
    · simp only [assignClasses, if_pos hlen, List.mem_cons, Prod.mk.injEq] at h
      rcases h with ⟨h1, h2⟩ | h2
      · subst h1; subst h2; exact ⟨by simp, hlen⟩
      · have := ih _ n a h2
        exact ⟨List.mem_cons_of_mem _ this.1, this.2⟩
    · simp only [assignClasses, if_neg hlen] at h
      have := ih _ n a h
      exact ⟨List.mem_cons_of_mem _ this.1, this.2⟩

/-- With nodup keys, a key determines its count. -/
lemma nodup_keys_eq :
    ∀ (l : List (String × Nat)) (n : String) (c1 c2 : Nat),
      (l.map Prod.fst).Nodup → (n, c1) ∈ l → (n, c2) ∈ l → c1 = c2 := by
  intro l
  induction l with
  | nil => intro n c1 c2 _ h; simp at h
  | cons p rest ih =>
    intro n c1 c2 hnd h1 h2
    obtain ⟨k, v⟩ := p
    simp only [List.map_cons, List.nodup_cons] at hnd
    simp only [List.mem_cons, Prod.mk.injEq] at h1 h2
    rcases h1 with ⟨e1, e2⟩ | h1
    · rcases h2 with ⟨f1, f2⟩ | h2
      · omega
      · exact absurd (List.mem_map.mpr ⟨(n, c2), h2, by simp [e1]⟩) (e1 ▸ hnd.1)
    · rcases h2 with ⟨f1, f2⟩ | h2
      · exact absurd (List.mem_map.mpr ⟨(n, c1), h1, by simp [f1]⟩) (f1 ▸ hnd.1)
      · exact ih n c1 c2 hnd.2 h1 h2

/-- What `findSome?` returns satisfies any property all hits satisfy. -/
lemma findSome?_sat {α β : Type} (f : α → Option β) (P : β → Prop)
    (hf : ∀ x y, f x = some y → P y) :
    ∀ (l : List α) (y : β), l.findSome? f = some y → P y := by
  intro l
  induction l with
  | nil => intro y h; simp [List.findSome?] at h
  | cons x xs ih =>
    intro y h
    rw [List.findSome?_cons] at h
    cases hfx : f x with
    | some b =>
      simp only [hfx] at h
      exact (Option.some.inj h) ▸ hf x b hfx
    | none =>
      simp only [hfx] at h
      exact ih y h

/-- The HTML prop fold ignores spreads. -/
lemma foldl_htmlPropFold_filter :
    ∀ (props : List PropV) (acc : String),
      props.foldl htmlPropFold acc =
        (props.filter fun p => !isSpread p).foldl htmlPropFold acc := by
  intro props
  induction props with
  | nil => intro acc; rfl
  | cons p rest ih =>
    intro acc
    cases p with
    | spread v => simp [htmlPropFold, isSpread, List.filter, ih]
    | boolean n => simp [List.filter, isSpread, ih]
    | str n v => simp [List.filter, isSpread, ih]
    | expr n v => simp [List.filter, isSpread, ih]

/-- `htmlOpenTag` is unchanged when spreads are filtered from the props. -/
lemma htmlOpenTag_filter_spread (tag : String) (id : Option Sel)
    (classes : List Sel) (props : List PropV) :
    htmlOpenTag tag id classes props =
      htmlOpenTag tag id classes (props.filter fun p => !isSpread p) := by
  unfold htmlOpenTag
  rw [foldl_htmlPropFold_filter]

/-! ## Claim theorems -/

/-- C3: a prop with occurrence count `< 2` or name length `≤ 4` is never
aliased; a class with count `< 2` or length `≤ 3` is never aliased; and every
installed class alias is strictly shorter than the original class name. -/
theorem alias_candidacy_thresholds :
    (∀ (freq : List (String × Nat)) (name : String) (count : Nat) (a : String),
        (freq.map Prod.fst).Nodup → (name, count) ∈ freq → count < 2 ∨ name.length ≤ 4 →
        (name, a) ∉ generatePropAliases freq) ∧
    (∀ (freq : List (String × Nat)) (name : String) (count : Nat) (a : String),
        (freq.map Prod.fst).Nodup → (name, count) ∈ freq → count < 2 ∨ name.length ≤ 3 →
        (name, a) ∉ generateClassAliases freq) ∧
    (∀ (freq : List (String × Nat)) (name a : String),
        (name, a) ∈ generateClassAliases freq → a.length < name.length) := by
  refine ⟨?_, ?_, ?_⟩
  · intro freq name count a hnd hmem hcond habs
    simp only [generatePropAliases] at habs
    have h1 := mem_assignWith findPropAlias _ _ _ _ habs
    rw [List.mem_map] at h1
    obtain ⟨⟨n2, c2⟩, hmem2, heq⟩ := h1
    simp only at heq
    subst heq
    rw [mem_sortByDesc, List.mem_filter] at hmem2
    obtain ⟨hfr, hcnd⟩ := hmem2
    simp only [decide_eq_true_eq] at hcnd
    have hce := nodup_keys_eq freq n2 count c2 hnd hmem hfr
    omega
  · intro freq name count a hnd hmem hcond habs
    simp only [generateClassAliases] at habs
    have h1 := (mem_assignClasses _ _ _ _ habs).1
    rw [List.mem_map] at h1
    obtain ⟨⟨n2, c2⟩, hmem2, heq⟩ := h1
    simp only at heq
    subst heq
    rw [mem_sortByDesc, List.mem_filter] at hmem2
    obtain ⟨hfr, hcnd⟩ := hmem2
    simp only [decide_eq_true_eq] at hcnd
    have hce := nodup_keys_eq freq n2 count c2 hnd hmem hfr
    omega
  · intro freq name a h
    simp only [generateClassAliases] at h
    exact (mem_assignClasses _ _ _ _ h).2

/-- Witness for `alias_candidacy_thresholds` at concrete inputs: a
once-occurring prop name and a short class name are not aliased. -/
theorem alias_candidacy_thresholds_witness :
    ("className", "c") ∉ generatePropAliases [("className", 1)] ∧
    ("p-6", "p") ∉ generateClassAliases [("p-6", 7)] :=
  ⟨alias_candidacy_thresholds.1 [("className", 1)] "className" 1 "c" (by decide)
      (by simp) (Or.inl (by decide)),
   alias_candidacy_thresholds.2.1 [("p-6", 7)] "p-6" 7 "p" (by decide)
      (by simp) (Or.inr (by decide))⟩

/-- C4: the map iteration parameter is `singularize` of the collection
expression (the text between `*` and the first `>`), `singularize` follows
the spec's ordered rules on the final dotted segment, and the two scenario
inputs evaluate as specified. -/
theorem map_iteration_param_singularize :
    (∀ s : String, singularize s = singularizeSpec s) ∧
    singularize "categories" = "category" ∧
    singularize "data.items" = "item" ∧
    (∀ (fuel : Nat) (ctx : Ctx) (t : String), ∃ child : Node,
        parseMap fuel ctx t =
          .mapNode (jsTrim (jsSlice (jsSliceFrom t 1) 0 (jsIndexOf (jsSliceFrom t 1) '>')))
            (singularize (jsTrim (jsSlice (jsSliceFrom t 1) 0 (jsIndexOf (jsSliceFrom t 1) '>'))))
            child []) ∧
    decodeTree "*data.items > li" =
      [.mapNode "data.items" "item" (.element "li" none [] [] none []) []] :=
  ⟨singularize_eq_spec, rfl, rfl, fun _ _ _ => ⟨_, rfl⟩, rfl⟩

/-- C6: the class-alias search maps `items-center` to `ic` and `bg-gray-50`
to `bg5` with no aliases in use; in general it returns either the original
name or a candidate that is unused and strictly shorter, and segment initials
win whenever they are non-empty, unused and strictly shorter. -/
theorem class_alias_assignment :
    findClassAlias "items-center" [] = "ic" ∧
    findClassAlias "bg-gray-50" [] = "bg5" ∧
    (∀ (name : String) (used : List String),
        findClassAlias name used = name ∨
          (used.contains (findClassAlias name used) = false ∧
           (findClassAlias name used).length < name.length)) ∧
    (∀ (name : String) (used : List String),
        initialsOf (splitPred name isDelim) ≠ "" →
        used.contains (initialsOf (splitPred name isDelim)) = false →
        (initialsOf (splitPred name isDelim)).length < name.length →
        findClassAlias name used = initialsOf (splitPred name isDelim)) := by
  refine ⟨rfl, rfl, ?_, ?_⟩
  · intro name used
    simp only [findClassAlias]
    split
    · next h => exact Or.inr ⟨by simpa using h.2.1, h.2.2⟩
    · split
      · next h => exact Or.inr ⟨by simpa using h.2.1, h.2.2⟩
      · split
        · next h => exact Or.inr ⟨by simpa using h.2.1, h.2.2⟩
        · split
          · next a ha =>
            refine Or.inr (findSome?_sat _
              (fun y => used.contains y = false ∧ y.length < name.length) ?_ _ a ha)
            intro x y hxy
            split at hxy
            · next hcnd =>
              cases hxy
              exact ⟨by simpa using hcnd.1, hcnd.2⟩
            · cases hxy
          · exact Or.inl rfl
  · intro name used h1 h2 h3
    simp only [findClassAlias]
    exact if_pos (And.intro h1 (And.intro (fun hm => by rw [h2] at hm; cases hm) h3))

/-- Witness for `class_alias_assignment` at a concrete input: the initials
strategy applies to `items-start` with nothing in use. -/
theorem class_alias_assignment_witness :
    findClassAlias "items-start" [] = "is" :=
  class_alias_assignment.2.2.2 "items-start" [] (by decide) (by decide) (by decide)


/-- C5: `"?isLoggedIn > Dashboard | Login"` decodes to the specified ternary;
any line starting with `?` containing `>` and `|` is dispatched to the
ternary parser; and the ternary parser splits the text after `?` at the first
`>` for the condition and the remainder at the first unnested `|` (found by
`findUnbraced`, which tracks `{}/()/[]` depth) into consequent and alternate,
classifying each side recursively. -/
theorem ternary_line_decoding :
    decodeTree "?isLoggedIn > Dashboard | Login" =
      [.ternary "isLoggedIn" (.element "Dashboard" none [] [] none [])
        (.element "Login" none [] [] none []) []] ∧
    (∀ (fuel : Nat) (ctx : Ctx) (s : String),
        jsStartsWith s "?" = true → s.toList.contains '>' = true →
        s.toList.contains '|' = true →
        classifyAndParse (fuel + 1) ctx s = parseTernary fuel ctx s) ∧
    (∀ (fuel : Nat) (ctx : Ctx) (s : String),
        parseTernary fuel ctx s =
          .ternary
            (jsTrim (jsSlice (jsSliceFrom s 1) 0 (jsIndexOf (jsSliceFrom s 1) '>')))
            (classifyAndParse fuel ctx (jsTrim (jsSlice
              (jsTrim (jsSliceFrom (jsSliceFrom s 1) (jsIndexOf (jsSliceFrom s 1) '>' + 1)))
              0
              (findUnbraced
                (jsTrim (jsSliceFrom (jsSliceFrom s 1) (jsIndexOf (jsSliceFrom s 1) '>' + 1)))
                '|'))))
            (classifyAndParse fuel ctx (jsTrim (jsSliceFrom
              (jsTrim (jsSliceFrom (jsSliceFrom s 1) (jsIndexOf (jsSliceFrom s 1) '>' + 1)))
              (findUnbraced
                (jsTrim (jsSliceFrom (jsSliceFrom s 1) (jsIndexOf (jsSliceFrom s 1) '>' + 1)))
                '|' + 1))))
            []) := by
  refine ⟨rfl, ?_, fun fuel ctx s => rfl⟩
  intro fuel ctx s h1 h2 h3
  have hne : ¬(s = "_") := by
    intro e
    subst e
    exact absurd h1 (by decide)
  simp only [classifyAndParse]
  rw [if_neg hne, if_pos ⟨h1, h2, h3⟩]
  rfl

/-- Witness for `ternary_line_decoding` at a concrete line. -/
theorem ternary_line_decoding_witness :
    classifyAndParse 11 emptyCtx "?a > b | c" = parseTernary 10 emptyCtx "?a > b | c" :=
  ternary_line_decoding.2.1 10 emptyCtx "?a > b | c" (by decide) (by decide) (by decide)

/-- C2 counterexample: for the marker line `?open > _` the inline child is a
fragment, not an element, so no synthetic frame is pushed: the subsequent
indented `div` attaches to the conditional marker node itself, not to the
inline fragment child as the claim requires. -/
theorem conditional_inline_frame_counterexample :
    decodeTree "?open > _\n div" =
      [.conditional "open" (.fragment []) [.element "div" none [] [] none []]] ∧
    decodeTree "?open > _\n div" ≠
      [.conditional "open" (.fragment [.element "div" none [] [] none []]) []] := by
  refine ⟨rfl, ?_⟩
  intro h
  exact absurd (congrArg rootCondOwnKids h) (by decide)

/-- C2 as amended: after a non-blank marker line classifies as a conditional
or map node, the decoder pushes the synthetic inline-child frame one indent
unit deeper only when the inline child is an element; otherwise only the
marker node's own frame is pushed. -/
theorem marker_inline_frame_element_only :
    (∀ (ctx : Ctx) (st : BState) (raw cond : String) (child : Node) (cs : List Node),
        jsTrimStart raw ≠ "" →
        classifyAndParse (jsTrimStart raw).length ctx (jsTrimStart raw) =
          .conditional cond child cs →
        isElem child = true →
        buildStep ctx st raw =
          ⟨(popWhile (indentOf raw) st).rootKids,
           ⟨child, indentOf raw + 1, [], true⟩ ::
             ⟨.conditional cond child cs, indentOf raw, [], false⟩ ::
               (popWhile (indentOf raw) st).stack⟩) ∧
    (∀ (ctx : Ctx) (st : BState) (raw cond : String) (child : Node) (cs : List Node),
        jsTrimStart raw ≠ "" →
        classifyAndParse (jsTrimStart raw).length ctx (jsTrimStart raw) =
          .conditional cond child cs →
        isElem child = false →
        buildStep ctx st raw =
          ⟨(popWhile (indentOf raw) st).rootKids,
           ⟨.conditional cond child cs, indentOf raw, [], false⟩ ::
             (popWhile (indentOf raw) st).stack⟩) ∧
    (∀ (ctx : Ctx) (st : BState) (raw coll param : String) (child : Node) (cs : List Node),
        jsTrimStart raw ≠ "" →
        classifyAndParse (jsTrimStart raw).length ctx (jsTrimStart raw) =
          .mapNode coll param child cs →
        isElem child = true →
        buildStep ctx st raw =
          ⟨(popWhile (indentOf raw) st).rootKids,
           ⟨child, indentOf raw + 1, [], true⟩ ::
             ⟨.mapNode coll param child cs, indentOf raw, [], false⟩ ::
               (popWhile (indentOf raw) st).stack⟩) ∧
    (∀ (ctx : Ctx) (st : BState) (raw coll param : String) (child : Node) (cs : List Node),
        jsTrimStart raw ≠ "" →
        classifyAndParse (jsTrimStart raw).length ctx (jsTrimStart raw) =
          .mapNode coll param child cs →
        isElem child = false →
        buildStep ctx st raw =
          ⟨(popWhile (indentOf raw) st).rootKids,
           ⟨.mapNode coll param child cs, indentOf raw, [], false⟩ ::
             (popWhile (indentOf raw) st).stack⟩) := by
  refine ⟨?_, ?_, ?_, ?_⟩
  · intro ctx st raw cond child cs h1 h2 h3
    simp [buildStep, if_neg h1, h2, h3]
  · intro ctx st raw cond child cs h1 h2 h3
    simp [buildStep, if_neg h1, h2, h3]
  · intro ctx st raw coll param child cs h1 h2 h3
    simp [buildStep, if_neg h1, h2, h3]
  · intro ctx st raw coll param child cs h1 h2 h3
    simp [buildStep, if_neg h1, h2, h3]

/-- Witness for `marker_inline_frame_element_only` at a concrete marker line
whose inline child is an element. -/
theorem marker_inline_frame_element_only_witness :
    buildStep emptyCtx ⟨[], []⟩ "?c > div" =
      ⟨[], [⟨.element "div" none [] [] none [], 1, [], true⟩,
            ⟨.conditional "c" (.element "div" none [] [] none []) [], 0, [], false⟩]⟩ :=
  marker_inline_frame_element_only.1 emptyCtx ⟨[], []⟩ "?c > div" "c"
    (.element "div" none [] [] none []) [] (by decide) rfl rfl

/-- C1 counterexample: the tree decoded from `div {a:"x, y"}` carries a prop
whose expression value contains a top-level comma; the writer emits the value
unquoted, so re-decoding splits it into two props and the round trip fails. -/
theorem roundtrip_comma_prop_counterexample :
    decodeTree "div \x7ba:\"x, y\"\x7d" = [repCommaProp] ∧
    decodeTree (writeDoc [repCommaProp]) =
      [.element "div" none [] [.expr "a" "x", .boolean "y"] none []] ∧
    decodeTree (writeDoc [repCommaProp]) ≠ [repCommaProp] := by
  refine ⟨rfl, rfl, ?_⟩
  intro h
  exact absurd (congrArg rootPropsLen h) (by decide)

/-- C1 as amended: the decode∘write round trip holds on representative trees
of every node kind (fragment, element with id/classes/props/inline text,
text, expression, conditional with a multi-line element child, ternary with
aliased component names, map); it does not hold for every constructible
tree. -/
theorem roundtrip_representative_trees :
    decodeTree (writeDoc [repFragment]) = [repFragment] ∧
    decodeTree (writeDoc [repElement]) = [repElement] ∧
    decodeTree (writeDoc [repText]) = [repText] ∧
    decodeTree (writeDoc [repExpr]) = [repExpr] ∧
    decodeTree (writeDoc [repConditional]) = [repConditional] ∧
    decodeTree (writeDoc [repTernary]) = [repTernary] ∧
    decodeTree (writeDoc [repMap]) = [repMap] :=
  ⟨rfl, rfl, rfl, rfl, rfl, rfl, rfl⟩

/-- C7 counterexample: at the claim's own examples of unrecoverable input
(a null/undefined or empty document), `decode` does not fail at all — it
returns the empty string, carrying no error kind whatsoever. -/
theorem decode_unrecoverable_inputs_counterexample :
    decode none Format.jsx = "" ∧ decode none Format.html = "" ∧
    decode (some "") Format.jsx = "" ∧ decode (some "") Format.html = "" :=
  ⟨rfl, rfl, rfl, rfl⟩

/-- C7 as amended: `decode` is total and never raises; on every degenerate
input (null/undefined, empty or whitespace-only) it returns the empty string
rather than failing with an error kind. -/
theorem decode_degenerate_input_returns_empty :
    ∀ (o : Option String) (fmt : Format),
      (o = none ∨ ∃ s, o = some s ∧ jsTrim s = "") → decode o fmt = "" := by
  rintro o fmt (rfl | ⟨s, rfl, hs⟩)
  · rfl
  · show (if jsTrim s = "" then "" else decodeCore s fmt) = ""
    rw [if_pos hs]

/-- Witness for `decode_degenerate_input_returns_empty`. -/
theorem decode_degenerate_input_returns_empty_witness :
    decode (some " ") Format.jsx = "" :=
  decode_degenerate_input_returns_empty (some " ") Format.jsx
    (Or.inr ⟨" ", rfl, by decide⟩)

/-- C8 counterexample: an AST chain holding a `JSXElement` at depth 201 — the
file encoder's `containsJSX` traversal has no depth cap and still finds it,
while `hasJSX` (the capped traversal) aborts at depth 200 and reports
nothing; so not every front-end traversal applies the 200 cap. -/
theorem traversal_depth_cap_counterexample :
    containsJSXWalk (chainAst 201) = true ∧ hasJSX (chainAst 201) = false :=
  ⟨rfl, rfl⟩

/-- C8 as amended: only `hasJSX` applies the hard 200-depth cap — its walk
returns the partial result `false` for any node visited past the cap, never
raising — while `containsJSX` recurses unboundedly and finds a `JSXElement`
at any depth. -/
theorem depth_cap_only_in_hasJSX :
    (∀ (n : Ast) (depth : Nat), depth > 200 → hasJSXWalk n depth = false) ∧
    (∀ k : Nat, containsJSXWalk (chainAst k) = true) := by
  constructor
  · intro n depth h
    cases n with
    | mk t kids => simp only [hasJSXWalk, if_pos h]
  · intro k
    induction k with
    | zero => rfl
    | succ k ih =>
      have hx : ¬("X" = "JSXElement" ∨ "X" = "JSXFragment") := by decide
      show containsJSXWalk (.mk "X" [chainAst k]) = true
      simp only [containsJSXWalk, containsJSXWalkList, if_neg hx, ih, Bool.true_or]

/-- Witness for `depth_cap_only_in_hasJSX`: even an immediate `JSXElement` is
not reported once the walk is past the cap. -/
theorem depth_cap_only_in_hasJSX_witness :
    hasJSXWalk (chainAst 0) 201 = false :=
  depth_cap_only_in_hasJSX.1 (chainAst 0) 201 (by decide)

/-- C9: `decode` of a null/undefined document or of an empty or
whitespace-only string is the empty string, in both output formats; in this
embedding `decode` is a total function, so no exception is possible. -/
theorem decode_blank_and_null_inputs :
    (∀ s : String, jsTrim s = "" →
        decode (some s) Format.jsx = "" ∧ decode (some s) Format.html = "") ∧
    decode none Format.jsx = "" ∧ decode none Format.html = "" := by
  refine ⟨?_, rfl, rfl⟩
  intro s hs
  constructor
  · show (if jsTrim s = "" then "" else decodeCore s Format.jsx) = ""
    rw [if_pos hs]
  · show (if jsTrim s = "" then "" else decodeCore s Format.html) = ""
    rw [if_pos hs]

/-- Witness for `decode_blank_and_null_inputs` on a whitespace-only string. -/
theorem decode_blank_and_null_inputs_witness :
    decode (some "  \n\t ") Format.jsx = "" ∧ decode (some "  \n\t ") Format.html = "" :=
  decode_blank_and_null_inputs.1 "  \n\t " (by decide)

/-- C10: the HTML renderer drops spread props silently — an element renders
character-for-character the same with its spread entries removed, and a
childless `div` whose only prop is a spread renders as a bare `<div></div>`
with no comment or attribute. -/
theorem html_spread_props_dropped :
    (∀ (tag : String) (id : Option Sel) (classes : List Sel) (props : List PropV)
        (inlineChild : Option Node) (children : List Node) (level : Nat),
        emitHTMLNode (.element tag id classes props inlineChild children) level =
          emitHTMLNode
            (.element tag id classes (props.filter fun p => !isSpread p) inlineChild children)
            level) ∧
    emitHTMLNode (.element "div" none [] [.spread "rest"] none []) 0 = ["<div></div>"] ∧
    emitHTMLNode (.element "div" none [] [] none []) 0 = ["<div></div>"] := by
  refine ⟨?_, rfl, rfl⟩
  intro tag id classes props ic children level
  simp only [emitHTMLNode]
  rw [← htmlOpenTag_filter_spread]

end JSXN
